import Mathlib

/-!
Shallow embedding of the Heroku Let's Encrypt plugin:
`letsencrypt/plugins/heroku.py` (Authenticator, GitClient, Command) and
`certbot-heroku/certbot_heroku/heroku_client.py` (HerokuApp).

Paths are modelled as lists of components (the Python code joins components
with "/"); the filesystem is a flat list of entries carrying a path, a
directory flag, a content string and a numeric owner.  Subprocess activity is
recorded in a trace distinguishing commands actually executed from commands
only logged because of dry run.  Python exceptions are modelled with an
explicit error type.
-/

set_option linter.unusedVariables false

namespace LEHeroku

/-- Python exception outcomes reachable in the plugin code. -/
inductive PyErr where
  | pluginError (msg : String)
  | calledProcessError (returncode : Nat)
  | keyError
  | indexError
  | osError
  | attributeError
  | uncertainSSLEndpoint (numEndpoints : Nat)
deriving DecidableEq, Repr

/-- An argument vector for a subprocess. -/
abbrev Cmd := List String

/-- Record of subprocess activity: `executed` are argument vectors actually run
through check_output, `logged` are argument vectors only printed ("Would run:")
because `Command.run` was called with dry_run=True. -/
structure Trace where
  executed : List Cmd
  logged : List Cmd
deriving DecidableEq, Repr

/-- Command.resudoed.  The Python reads os.environ["SUDO_USER"], which raises
KeyError when the variable is absent; when present the value is a string and
never None, so the `if sudo_user is None: return self` branch is dead and the
argument vector is always rewrapped with `sudo -u`. -/
def resudoed (sudoUser : Option String) (arguments : Cmd) : Except PyErr Cmd :=
  match sudoUser with
  | none => .error .keyError
  | some u => .ok (["sudo", "-u", u] ++ arguments)

/-- Abstract state of the local git working copy as observed through the
subprocess calls the plugin makes.  `branch` is the currently checked-out
branch (`none` models a detached HEAD, where `git symbolic-ref --short -q
HEAD` exits nonzero); `remotes` are the configured remote aliases; `diffExit`
is the exit status of `git diff --staged --quiet remote/branch`. -/
structure GitState where
  branch : Option String
  remotes : List String
  diffExit : Nat
deriving DecidableEq, Repr

/-- GitClient.git: prepend "git" and rewrap via Command.resudoed. -/
def gitCmd (sudoUser : Option String) (args : List String) : Except PyErr Cmd :=
  resudoed sudoUser ("git" :: args)

/-- GitClient.checked_out_branch: runs `git symbolic-ref --short -q HEAD`
(never dry) and strips the trailing newline; a nonzero exit (detached HEAD)
raises CalledProcessError. -/
def checked_out_branch (sudoUser : Option String) (g : GitState) (t : Trace) :
    Except PyErr String × Trace :=
  match gitCmd sudoUser ["symbolic-ref", "--short", "-q", "HEAD"] with
  | .error e => (.error e, t)
  | .ok cmd =>
    let t := { t with executed := t.executed ++ [cmd] }
    match g.branch with
    | some b => (.ok b, t)
    | none => (.error (.calledProcessError 1), t)

/-- GitClient.update_remote: runs `git remote update remote` (never dry); the
command exits nonzero when the remote alias is not configured. -/
def update_remote (sudoUser : Option String) (g : GitState) (t : Trace)
    (remote : String) : Except PyErr Unit × Trace :=
  match gitCmd sudoUser ["remote", "update", remote] with
  | .error e => (.error e, t)
  | .ok cmd =>
    let t := { t with executed := t.executed ++ [cmd] }
    if remote ∈ g.remotes then (.ok (), t)
    else (.error (.calledProcessError 1), t)

/-- GitClient.is_up_to_date: runs `git diff --staged --quiet remote/branch`
(never dry).  Exit 0 yields true; CalledProcessError with returncode 1 yields
false; any other nonzero returncode is re-raised. -/
def is_up_to_date (sudoUser : Option String) (g : GitState) (t : Trace)
    (branch remote : String) : Except PyErr Bool × Trace :=
  match gitCmd sudoUser ["diff", "--staged", "--quiet", remote ++ "/" ++ branch] with
  | .error e => (.error e, t)
  | .ok cmd =>
    let t := { t with executed := t.executed ++ [cmd] }
    if g.diffExit = 0 then (.ok true, t)
    else if g.diffExit = 1 then (.ok false, t)
    else (.error (.calledProcessError g.diffExit), t)

/-- GitClient.stage_file: runs `git add path` through Command.run with the
client's dry_run flag: when dry the command is only logged. -/
def stage_file (sudoUser : Option String) (dryRun : Bool) (path : String)
    (t : Trace) : Except PyErr Unit × Trace :=
  match gitCmd sudoUser ["add", path] with
  | .error e => (.error e, t)
  | .ok cmd =>
    if dryRun then (.ok (), { t with logged := t.logged ++ [cmd] })
    else (.ok (), { t with executed := t.executed ++ [cmd] })

/-- GitClient.commit: runs `git commit -m message` with the dry_run flag. -/
def commit (sudoUser : Option String) (dryRun : Bool) (message : String)
    (t : Trace) : Except PyErr Unit × Trace :=
  match gitCmd sudoUser ["commit", "-m", message] with
  | .error e => (.error e, t)
  | .ok cmd =>
    if dryRun then (.ok (), { t with logged := t.logged ++ [cmd] })
    else (.ok (), { t with executed := t.executed ++ [cmd] })

/-- GitClient.push_to_remote: runs `git push remote` with the dry_run flag. -/
def push_to_remote (sudoUser : Option String) (dryRun : Bool) (remote : String)
    (t : Trace) : Except PyErr Unit × Trace :=
  match gitCmd sudoUser ["push", remote] with
  | .error e => (.error e, t)
  | .ok cmd =>
    if dryRun then (.ok (), { t with logged := t.logged ++ [cmd] })
    else (.ok (), { t with executed := t.executed ++ [cmd] })

/-! ## Filesystem model -/

/-- A filesystem path, as the list of its `/`-separated components. -/
abbrev Path := List String

/-- Render a path the way the Python code builds it with string
concatenation. -/
def pathStr (p : Path) : String := String.intercalate "/" p

/-- One filesystem entry: a file or a directory with an owning uid. -/
structure Entry where
  path : Path
  isDir : Bool
  content : String
  owner : Int
deriving DecidableEq, Repr

/-- The filesystem: a flat list of entries. -/
abbrev FS := List Entry

/-- os.path.exists. -/
def path_exists (p : Path) (fs : FS) : Bool := fs.any (fun e => e.path == p)

/-- os.stat(p).st_uid. -/
def statUid (p : Path) (fs : FS) : Option Int :=
  (fs.find? (fun e => e.path == p)).map (fun e => e.owner)

/-- shutil.rmtree: removes the directory and everything below it. -/
def rmtree (d : Path) (fs : FS) : FS :=
  fs.filter (fun e => !(d.isPrefixOf e.path))

/-- Authenticator._clear_directory: rmtree guarded by an existence check. -/
def clear_directory (d : Path) (fs : FS) : FS :=
  if path_exists d fs then rmtree d fs else fs

/-- The nonempty prefixes of a path, shortest first. -/
def pathPrefixes (p : Path) : List Path :=
  (List.range p.length).map (fun i => p.take (i + 1))

/-- os.makedirs: creates every missing component of the path as a directory
owned by the invoking uid. -/
def makedirs (uid : Int) (d : Path) (fs : FS) : FS :=
  fs ++ ((pathPrefixes d).filter (fun q => !path_exists q fs)).map
    (fun q => ⟨q, true, "", uid⟩)

/-- open(file, "w") followed by write: overwrites an existing file's content,
otherwise creates the file owned by the invoking uid. -/
def writeFile (uid : Int) (p : Path) (content : String) (fs : FS) : FS :=
  if path_exists p fs then
    fs.map (fun e => if e.path == p then { e with content := content } else e)
  else fs ++ [⟨p, false, content, uid⟩]

/-! ## Challenges -/

/-- The response object attached to a challenge (opaque to the plugin). -/
structure Response where
  id : Nat
deriving DecidableEq, Repr

/-- An achall as the plugin consumes it: `uriRootPath` is URI_ROOT_PATH
(".well-known/acme-challenge" as components), `token` is the url-safe encoded
token (achall.chall.encode("token")), `validationEncoded` is
validation.encode(), and `response` is the response object returned by
response_and_validation. -/
structure Chall where
  domain : String
  uriRootPath : Path
  token : String
  validationEncoded : String
  response : Response
deriving DecidableEq, Repr

/-- Authenticator._write_challenge: create the challenge directory when
missing, then write the validation payload to a file named by the encoded
token. -/
def write_challenge (uid : Int) (directory : Path) (c : Chall) (fs : FS) : FS :=
  let fs := if !path_exists directory fs then makedirs uid directory fs else fs
  writeFile uid (directory ++ [c.token]) c.validationEncoded fs

/-- The write phase of Authenticator.perform: directory reset followed by
writing each challenge in order. -/
def write_phase (uid : Int) (directory : Path) (achalls : List Chall)
    (fs : FS) : FS :=
  achalls.foldl (fun f c => write_challenge uid directory c f)
    (clear_directory directory fs)

/-- The while loop of Authenticator._chown_challenges: repeatedly replace
`directory` by its dirname until its dirname equals `root`.  Fuel bounds the
iteration; with `directory.length` fuel the loop is fully simulated whenever
`root` is a proper prefix of `directory` (when it is not, the Python loop
never terminates). -/
def chownTopAux : Nat → Path → Path → Path
  | 0, _, d => d
  | fuel + 1, root, d => if d.dropLast == root then d else chownTopAux fuel root d.dropLast

/-- Authenticator._chown_challenges: walk `directory` up to the immediate
child of `root`, chown it, then os.walk it and chown every entry below it.
os.chown on a missing path raises OSError. -/
def chown_challenges (root directory : Path) (owner : Int) (fs : FS) :
    Except PyErr FS :=
  let top := chownTopAux directory.length root directory
  if path_exists top fs then
    .ok (fs.map (fun e =>
      if top.isPrefixOf e.path then { e with owner := owner } else e))
  else .error .osError

/-! ## perform -/

/-- The plugin configuration: --heroku-root, --heroku-remote,
--heroku-branch. -/
structure Cfg where
  root : Path
  remote : String
  branch : String
deriving DecidableEq, Repr

/-- Authenticator._preflight: root existence, branch check (a
CalledProcessError from the branch query is converted, a KeyError propagates),
remote update, up-to-date check. -/
def preflight (cfg : Cfg) (sudoUser : Option String) (g : GitState) (fs : FS)
    (t : Trace) : Except PyErr Unit × Trace :=
  if !path_exists cfg.root fs then
    (.error (.pluginError ("The \x27" ++ pathStr cfg.root ++ "\x27 folder doesn\x27t exist")), t)
  else
    match checked_out_branch sudoUser g t with
    | (.error (.calledProcessError _), t) =>
      (.error (.pluginError "Cannot identify a checked-out git branch"), t)
    | (.error e, t) => (.error e, t)
    | (.ok current, t) =>
      if current ≠ cfg.branch then
        (.error (.pluginError ("Working copy has \x27" ++ current ++
          "\x27 checked out, not \x27" ++ cfg.branch ++ "\x27")), t)
      else
        match update_remote sudoUser g t cfg.remote with
        | (.error (.calledProcessError _), t) =>
          (.error (.pluginError ("The \x27" ++ cfg.remote ++
            "\x27 git remote is not configured (use --heroku-remote to set a different one)")), t)
        | (.error e, t) => (.error e, t)
        | (.ok _, t) =>
          match is_up_to_date sudoUser g t cfg.branch cfg.remote with
          | (.error e, t) => (.error e, t)
          | (.ok true, t) => (.ok (), t)
          | (.ok false, t) =>
            (.error (.pluginError ("The working copy is out of date with the \x27" ++
              cfg.remote ++ "\x27 remote")), t)

instance {ε α : Type} [DecidableEq ε] [DecidableEq α] : DecidableEq (Except ε α) := fun a b =>
  match a, b with
  | .ok x, .ok y => decidable_of_iff (x = y) (by simp)
  | .error x, .error y => decidable_of_iff (x = y) (by simp)
  | .ok _, .error _ => isFalse (by simp)
  | .error _, .ok _ => isFalse (by simp)

/-- Result of Authenticator.perform: the returned responses or the raised
exception, together with the filesystem left behind and the subprocess
trace. -/
structure PerformOut where
  outcome : Except PyErr (List Response)
  fs : FS
  trace : Trace
deriving DecidableEq, Repr

/-- Authenticator.perform.  `uid` is the effective uid of the process (owner
of entries it creates).  The validation phase is modelled separately by
`wait_for_challenge_validation`; when every wait terminates the method
returns each challenge's response object in order, which is what the final
map produces. -/
def perform (cfg : Cfg) (sudoUser : Option String) (dryRun staging : Bool)
    (uid : Int) (g : GitState) (fs : FS) (achalls : List Chall) : PerformOut :=
  let t : Trace := ⟨[], []⟩
  match preflight cfg sudoUser g fs t with
  | (.error e, t) => ⟨.error e, fs, t⟩
  | (.ok _, t) =>
    match statUid cfg.root fs with
    | none => ⟨.error .osError, fs, t⟩
    | some owner =>
      match achalls with
      | [] => ⟨.error .indexError, fs, t⟩
      | a0 :: _ =>
        let directory := cfg.root ++ a0.uriRootPath
        let fs1 := write_phase uid directory achalls fs
        match chown_challenges cfg.root directory owner fs1 with
        | .error e => ⟨.error e, fs1, t⟩
        | .ok fs2 =>
          match stage_file sudoUser dryRun (pathStr directory) t with
          | (.error e, t) => ⟨.error e, fs2, t⟩
          | (.ok _, t) =>
            let msg := "Challenges for Let\x27s Encrypt certificate" ++
              (if staging then " (testing only)" else "")
            match commit sudoUser dryRun msg t with
            | (.error e, t) => ⟨.error e, fs2, t⟩
            | (.ok _, t) =>
              match push_to_remote sudoUser dryRun cfg.remote t with
              | (.error e, t) => ⟨.error e, fs2, t⟩
              | (.ok _, t) => ⟨.ok (achalls.map (fun c => c.response)), fs2, t⟩

/-! ## Validation wait -/

/-- Outcome of the while loop in _wait_for_challenge_validation after a given
number of polls were allowed: the predicate returned true, a KeyboardInterrupt
arrived during the sleep of the given iteration, or the loop is still
polling. -/
inductive WaitOutcome where
  | validated (polls : Nat)
  | interrupted (polls : Nat)
  | running
deriving DecidableEq, Repr

/-- The while loop: at iteration `i` invoke simple_verify (`oracle i`); on
false, sleep, during which a KeyboardInterrupt may arrive (`interruptAt =
some i`).  `fuel` is the number of iterations simulated; the loop itself has
no retry cap or timeout. -/
def waitLoop (oracle : Nat → Bool) (interruptAt : Option Nat) :
    Nat → Nat → WaitOutcome
  | 0, _ => .running
  | fuel + 1, i =>
    if oracle i then .validated (i + 1)
    else if interruptAt == some i then .interrupted (i + 1)
    else waitLoop oracle interruptAt fuel (i + 1)

/-- Authenticator._wait_for_challenge_validation: run the loop; when it ends,
whether validated or interrupted, return the challenge's response object.
`none` means the loop was still polling after `fuel` iterations. -/
def wait_for_challenge_validation (c : Chall) (oracle : Nat → Bool)
    (interruptAt : Option Nat) (fuel : Nat) : Option (Response × WaitOutcome) :=
  match waitLoop oracle interruptAt fuel 0 with
  | .running => none
  | o => some (c.response, o)

end LEHeroku

namespace HerokuClient

open LEHeroku (PyErr)

/-- A domain object returned by the platform API. -/
structure Domain where
  hostname : String
deriving DecidableEq, Repr

/-- Python str.endswith: a suffix test on the character sequence. -/
def endswith (s suffix : String) : Bool := suffix.data.isSuffixOf s.data

/-- HerokuApp.get_domains: drop every domain whose hostname ends with
".herokuapp.com", keep the rest's hostnames in order. -/
def get_domains (domain_objs : List Domain) : List String :=
  (domain_objs.filter (fun d => !(endswith d.hostname ".herokuapp.com"))).map
    (fun d => d.hostname)

/-- A TLS endpoint of the application. -/
structure SSLEndpoint where
  name : String
  certificate_chain : String
  private_key : String
deriving DecidableEq, Repr

/-- HerokuApp.update_certificate: fetch the endpoints (passed in), raise
UncertainSSLEndpointError unless there is exactly one, log only under dry
run, otherwise PATCH the one endpoint's chain and key.  The pair returns the
outcome and the endpoint set after the call. -/
def update_certificate (dryRun : Bool) (key certificate : String)
    (ssls : List SSLEndpoint) : Except PyErr Unit × List SSLEndpoint :=
  let num_endpoints := ssls.length
  if num_endpoints ≠ 1 then (.error (.uncertainSSLEndpoint num_endpoints), ssls)
  else
    match ssls with
    | [ssl] =>
      if dryRun then (.ok (), [ssl])
      else (.ok (), [{ ssl with certificate_chain := certificate, private_key := key }])
    | _ => (.error (.uncertainSSLEndpoint num_endpoints), ssls)

/-- The attributes UncertainSSLEndpointError.__init__ sets: only
num_endpoints. -/
def uncertain_error_attrs (num_endpoints : Nat) : List (String × Nat) :=
  [("num_endpoints", num_endpoints)]

/-- UncertainSSLEndpointError.__str__ evaluates the expression
`"The application has " + self.num_endpoint + " endpoints, not 1."`.
The attribute lookup of "num_endpoint" fails (the field set by __init__ is
"num_endpoints"), so str() raises AttributeError; moreover the method body is
a bare expression with no return statement, so even a successful evaluation
would make __str__ yield None rather than the message. -/
def uncertain_error_str (num_endpoints : Nat) : Except PyErr (Option String) :=
  match (uncertain_error_attrs num_endpoints).lookup "num_endpoint" with
  | none => .error .attributeError
  | some _ => .ok none

end HerokuClient

/-! ## Theorems -/

namespace LEHeroku

/-- Claim C9: the claim says `resudoed` rewraps exactly when the effective
user is privileged and the invoking user is known, and otherwise returns the
command unchanged without failing.  The code instead raises KeyError whenever
SUDO_USER is absent from the environment (its `is None` guard is dead code),
and rewraps whenever SUDO_USER is present without consulting the effective
uid: evaluating the model at an environment with no SUDO_USER shows the
failure, and at an environment with SUDO_USER set shows the unconditional
rewrap. -/
theorem resudoed_no_sudo_user_raises :
    resudoed none ["git", "status"] = .error .keyError
    ∧ resudoed (some "bob") ["git", "status"] =
        .ok ["sudo", "-u", "bob", "git", "status"] :=
  ⟨rfl, rfl⟩

/-- The while loop keeps polling: with no interrupt and the oracle false on
the first `fuel` iterations, the loop is still running after `fuel` polls. -/
theorem waitLoop_running (oracle : Nat → Bool) :
    ∀ (fuel i : Nat), (∀ j, j < i + fuel → oracle j = false) →
      waitLoop oracle none fuel i = .running := by
  intro fuel
  induction fuel with
  | zero => intro i _; rfl
  | succ n ih =>
    intro i h
    have hi : oracle i = false := h i (by omega)
    simp only [waitLoop, hi, if_false]
    have : (none == some i) = false := rfl
    simp only [this, if_false, Bool.false_eq_true]
    exact ih (i + 1) (fun j hj => h j (by omega))

/-- The while loop exits via the oracle on the first true poll. -/
theorem waitLoop_validated (oracle : Nat → Bool) :
    ∀ (fuel i m : Nat), i ≤ m → m < i + fuel → oracle m = true →
      (∀ j, i ≤ j → j < m → oracle j = false) →
      waitLoop oracle none fuel m = waitLoop oracle none fuel m →
      waitLoop oracle none fuel i = .validated (m + 1) := by
  intro fuel
  induction fuel with
  | zero => intro i m _ hm _ _ _; omega
  | succ n ih =>
    intro i m him hm htrue hfalse _
    by_cases hi : i = m
    · subst hi
      simp only [waitLoop, htrue, if_true]
    · have hif : oracle i = false := hfalse i le_rfl (by omega)
      simp only [waitLoop, hif, Bool.false_eq_true, if_false]
      have : (none == some i) = false := rfl
      simp only [this, if_false]
      exact ih (i + 1) m (by omega) (by omega) htrue (fun j hj hj2 => hfalse j (by omega) hj2) rfl

/-- The while loop exits via KeyboardInterrupt when the oracle is still
false when the interrupt arrives. -/
theorem waitLoop_interrupted (oracle : Nat → Bool) :
    ∀ (fuel i k : Nat), i ≤ k → k < i + fuel →
      (∀ j, i ≤ j → j ≤ k → oracle j = false) →
      waitLoop oracle (some k) fuel i = .interrupted (k + 1) := by
  intro fuel
  induction fuel with
  | zero => intro i k _ hk _; omega
  | succ n ih =>
    intro i k hik hk hfalse
    have hif : oracle i = false := hfalse i le_rfl hik
    by_cases hi : i = k
    · subst hi
      simp only [waitLoop, hif, Bool.false_eq_true, if_false, beq_self_eq_true, if_true]
    · simp only [waitLoop, hif, Bool.false_eq_true, if_false]
      have : (some k == some i) = false := by
        simp [beq_eq_false_iff_ne]
        omega
      simp only [this, if_false]
      exact ih (i + 1) k (by omega) (by omega) (fun j hj hj2 => hfalse j (by omega) hj2)

/-- Claim C7: the validation wait polls the external simple-verification
predicate until it returns true with no retry cap or timeout (after any
number of all-false polls the loop is still running), and a
KeyboardInterrupt during the wait ends the loop early without raising, the
challenge's response object still being returned. -/
theorem wait_for_challenge_validation_spec (c : Chall) :
    (∀ (oracle : Nat → Bool) (m fuel : Nat), m < fuel → oracle m = true →
        (∀ i, i < m → oracle i = false) →
        wait_for_challenge_validation c oracle none fuel =
          some (c.response, .validated (m + 1)))
    ∧ (∀ (oracle : Nat → Bool) (k fuel : Nat), k < fuel →
        (∀ i, i ≤ k → oracle i = false) →
        wait_for_challenge_validation c oracle (some k) fuel =
          some (c.response, .interrupted (k + 1)))
    ∧ (∀ (oracle : Nat → Bool) (n : Nat), (∀ i, i < n → oracle i = false) →
        wait_for_challenge_validation c oracle none n = none) := by
  refine ⟨?_, ?_, ?_⟩
  · intro oracle m fuel hm htrue hfalse
    have h := waitLoop_validated oracle fuel 0 m (Nat.zero_le m) (by omega) htrue
      (fun j _ hj => hfalse j hj) rfl
    simp [wait_for_challenge_validation, h]
  · intro oracle k fuel hk hfalse
    have h := waitLoop_interrupted oracle fuel 0 k (Nat.zero_le k) (by omega)
      (fun j _ hj => hfalse j hj)
    simp [wait_for_challenge_validation, h]
  · intro oracle n hfalse
    have h := waitLoop_running oracle n 0 (fun j hj => hfalse j (by omega))
    simp [wait_for_challenge_validation, h]

/-- A concrete challenge used by witnesses. -/
def wChall : Chall :=
  ⟨"example.com", [".well-known", "acme-challenge"], "tokW", "valW.sig", ⟨9⟩⟩

/-- Witness for C7: a run validated on the third poll, a run interrupted
after four polls, and a run still polling after seven all-false polls. -/
theorem wait_for_challenge_validation_spec_witness :
    wait_for_challenge_validation wChall (fun i => decide (i = 2)) none 5 =
      some (wChall.response, .validated 3)
    ∧ wait_for_challenge_validation wChall (fun _ => false) (some 3) 10 =
      some (wChall.response, .interrupted 4)
    ∧ wait_for_challenge_validation wChall (fun _ => false) none 7 = none :=
  ⟨(wait_for_challenge_validation_spec wChall).1 (fun i => decide (i = 2)) 2 5
      (by decide) (by decide) (by decide),
    (wait_for_challenge_validation_spec wChall).2.1 (fun _ => false) 3 10
      (by decide) (fun i _ => rfl),
    (wait_for_challenge_validation_spec wChall).2.2 (fun _ => false) 7
      (fun i _ => rfl)⟩

end LEHeroku

namespace HerokuClient

/-- Concrete TLS endpoints used by the C2 evaluation. -/
def sslA : SSLEndpoint := ⟨"endpoint-a", "chainA", "keyA"⟩

def sslB : SSLEndpoint := ⟨"endpoint-b", "chainB", "keyB"⟩

def sslC : SSLEndpoint := ⟨"endpoint-c", "chainC", "keyC"⟩

/-- Claim C2, evaluated at the failing input of three TLS endpoints: the
update is refused and every endpoint is left unmodified, and the raised
UncertainSSLEndpointError records the observed count 3 — but producing its
message fails with AttributeError (the __str__ body reads the missing
attribute `num_endpoint` and has no return statement), so no error message
reading "...has 3 endpoints, not 1." is ever produced, contrary to the
claim. -/
theorem update_certificate_three_endpoints :
    update_certificate false "NEWKEY" "NEWCERT" [sslA, sslB, sslC] =
      (.error (.uncertainSSLEndpoint 3), [sslA, sslB, sslC])
    ∧ uncertain_error_str 3 = .error .attributeError
    ∧ update_certificate false "NEWKEY" "NEWCERT" [sslA] =
        (.ok (), [{ sslA with certificate_chain := "NEWCERT", private_key := "NEWKEY" }]) :=
  ⟨rfl, rfl, rfl⟩

/-- Claim C8: get_domains is the suffix filter on the fetched hostname list —
it excludes every hostname ending in ".herokuapp.com" and keeps every other
hostname once per occurrence in the fetched list. -/
theorem get_domains_spec (l : List Domain) :
    get_domains l =
      (l.map (fun d => d.hostname)).filter (fun h => !(endswith h ".herokuapp.com"))
    ∧ (∀ h : String, endswith h ".herokuapp.com" = true → h ∉ get_domains l)
    ∧ (∀ h : String, endswith h ".herokuapp.com" = false →
        (get_domains l).count h = (l.map (fun d => d.hostname)).count h) := by
  have hfilter : get_domains l =
      (l.map (fun d => d.hostname)).filter (fun h => !(endswith h ".herokuapp.com")) := by
    induction l with
    | nil => rfl
    | cons d tl ih =>
      by_cases hd : endswith d.hostname ".herokuapp.com"
      · simp [get_domains, List.filter_cons, hd] at ih ⊢
        exact ih
      · simp [get_domains, List.filter_cons, hd] at ih ⊢
        exact ih
  refine ⟨hfilter, ?_, ?_⟩
  · intro h hends hmem
    rw [hfilter] at hmem
    have := List.of_mem_filter hmem
    simp [hends] at this
  · intro h hends
    rw [hfilter]
    induction (l.map (fun d => d.hostname)) with
    | nil => rfl
    | cons x tl ih =>
      by_cases hx : endswith x ".herokuapp.com"
      · have hne : (x == h) = false := by
          apply beq_eq_false_iff_ne.mpr
          intro hxh
          rw [hxh, hends] at hx
          exact Bool.false_ne_true hx
        simp [List.filter_cons, hx, List.count_cons, hne, ih]
      · simp [List.filter_cons, hx, List.count_cons, ih]

/-- Concrete fetched domain list used by the C8 witness. -/
def exDomains : List Domain :=
  [⟨"foo.herokuapp.com"⟩, ⟨"shop.example.com"⟩, ⟨"shop.example.com"⟩]

/-- Witness for C8: the platform subdomain is excluded and a custom hostname
occurring twice is kept with multiplicity two. -/
theorem get_domains_spec_witness :
    "foo.herokuapp.com" ∉ get_domains exDomains
    ∧ (get_domains exDomains).count "shop.example.com" =
        (exDomains.map (fun d => d.hostname)).count "shop.example.com" :=
  ⟨(get_domains_spec exDomains).2.1 "foo.herokuapp.com" (by decide),
    (get_domains_spec exDomains).2.2 "shop.example.com" (by decide)⟩

end HerokuClient

namespace LEHeroku

/-- Claim C6: with the dry-run flag set, the write-class git operations
(stage, commit, push) execute nothing — the command line is only logged —
and the certificate replacement leaves the single endpoint unmodified, while
the read-class operations (branch query, remote update, diff-against-upstream
check) still append to the executed-command trace. -/
theorem dry_run_frame (u p msg remote branch : String) (t : Trace) (g : GitState)
    (key cert : String) (s : HerokuClient.SSLEndpoint) :
    (stage_file (some u) true p t).2.executed = t.executed
    ∧ (stage_file (some u) true p t).2.logged =
        t.logged ++ [["sudo", "-u", u, "git", "add", p]]
    ∧ (stage_file (some u) true p t).1 = .ok ()
    ∧ (commit (some u) true msg t).2.executed = t.executed
    ∧ (commit (some u) true msg t).2.logged =
        t.logged ++ [["sudo", "-u", u, "git", "commit", "-m", msg]]
    ∧ (push_to_remote (some u) true remote t).2.executed = t.executed
    ∧ (push_to_remote (some u) true remote t).2.logged =
        t.logged ++ [["sudo", "-u", u, "git", "push", remote]]
    ∧ (checked_out_branch (some u) g t).2.executed =
        t.executed ++ [["sudo", "-u", u, "git", "symbolic-ref", "--short", "-q", "HEAD"]]
    ∧ (update_remote (some u) g t remote).2.executed =
        t.executed ++ [["sudo", "-u", u, "git", "remote", "update", remote]]
    ∧ (is_up_to_date (some u) g t branch remote).2.executed =
        t.executed ++ [["sudo", "-u", u, "git", "diff", "--staged", "--quiet", remote ++ "/" ++ branch]]
    ∧ HerokuClient.update_certificate true key cert [s] = (.ok (), [s]) := by
  refine ⟨rfl, rfl, rfl, rfl, rfl, rfl, rfl, ?_, ?_, ?_, rfl⟩
  · cases hb : g.branch <;> simp [checked_out_branch, gitCmd, resudoed, hb]
  · by_cases hr : remote ∈ g.remotes <;> simp [update_remote, gitCmd, resudoed, hr]
  · rcases h0 : g.diffExit with _ | n
    · simp [is_up_to_date, gitCmd, resudoed, h0]
    · rcases n with _ | m <;> simp [is_up_to_date, gitCmd, resudoed, h0]

end LEHeroku

namespace LEHeroku

/-- Claim C3: with SUDO_USER set, the configured root present and a branch
`current` checked out that differs from the configured branch, `perform`
raises the PluginError naming both branches, leaves the filesystem exactly as
it was (no file written, no directory removed) and has executed only the
branch query — no `git add`, `git commit` or `git push`. -/
theorem perform_wrong_branch (cfg : Cfg) (u current : String) (dr st : Bool)
    (uid : Int) (g : GitState) (fs : FS) (achalls : List Chall)
    (hroot : path_exists cfg.root fs = true)
    (hbr : g.branch = some current)
    (hne : current ≠ cfg.branch) :
    perform cfg (some u) dr st uid g fs achalls =
      ⟨.error (.pluginError ("Working copy has \x27" ++ current ++
          "\x27 checked out, not \x27" ++ cfg.branch ++ "\x27")),
        fs,
        ⟨[["sudo", "-u", u, "git", "symbolic-ref", "--short", "-q", "HEAD"]], []⟩⟩ := by
  simp [perform, preflight, checked_out_branch, gitCmd, resudoed, hroot, hbr, hne]

/-- Witness for C3: branch `master` configured, `feature` checked out. -/
theorem perform_wrong_branch_witness :
    perform ⟨["public"], "heroku", "master"⟩ (some "bob") false false 0
        ⟨some "feature", ["heroku"], 0⟩ [⟨["public"], true, "", 5⟩]
        [⟨"example.com", [".well-known", "acme-challenge"], "tokW", "valW.sig", ⟨9⟩⟩] =
      ⟨.error (.pluginError "Working copy has \x27feature\x27 checked out, not \x27master\x27"),
        [⟨["public"], true, "", 5⟩],
        ⟨[["sudo", "-u", "bob", "git", "symbolic-ref", "--short", "-q", "HEAD"]], []⟩⟩ :=
  perform_wrong_branch ⟨["public"], "heroku", "master"⟩ "bob" "feature" false false 0
    ⟨some "feature", ["heroku"], 0⟩ [⟨["public"], true, "", 5⟩] _ (by decide) rfl (by decide)

end LEHeroku

namespace LEHeroku

/-- When every precondition holds (root present, right branch checked out,
remote configured, staged diff exits 0) preflight succeeds, having executed
exactly the three read-class git commands. -/
theorem preflight_ok (cfg : Cfg) (u : String) (g : GitState) (fs : FS) (t : Trace)
    (hroot : path_exists cfg.root fs = true)
    (hbr : g.branch = some cfg.branch)
    (hrem : cfg.remote ∈ g.remotes)
    (hdiff : g.diffExit = 0) :
    preflight cfg (some u) g fs t =
      (.ok (), { t with executed := t.executed ++
        [["sudo", "-u", u, "git", "symbolic-ref", "--short", "-q", "HEAD"],
         ["sudo", "-u", u, "git", "remote", "update", cfg.remote],
         ["sudo", "-u", u, "git", "diff", "--staged", "--quiet",
           cfg.remote ++ "/" ++ cfg.branch]] }) := by
  simp [preflight, checked_out_branch, update_remote, is_up_to_date, gitCmd,
    resudoed, hroot, hbr, hrem, hdiff]

/-- Claim C4: `is_up_to_date` returns true exactly when the staged-diff check
exits 0, interprets exit status 1 as false, re-raises any other nonzero exit
status as a CalledProcessError instead of returning a boolean, and when it
returns false `perform` fails at preflight with the PluginError naming the
remote. -/
theorem is_up_to_date_spec (u branch remote : String) (t : Trace)
    (g0 g1 gk : GitState) (k : Nat) (cfg : Cfg) (fs : FS) (dr st : Bool)
    (uid : Int) (achalls : List Chall)
    (h0 : g0.diffExit = 0) (h1 : g1.diffExit = 1)
    (hk : gk.diffExit = k) (hk0 : k ≠ 0) (hk1 : k ≠ 1)
    (hroot : path_exists cfg.root fs = true)
    (hbr : g1.branch = some cfg.branch)
    (hrem : cfg.remote ∈ g1.remotes) :
    (is_up_to_date (some u) g0 t branch remote).1 = .ok true
    ∧ (is_up_to_date (some u) g1 t branch remote).1 = .ok false
    ∧ (is_up_to_date (some u) gk t branch remote).1 =
        .error (.calledProcessError k)
    ∧ (perform cfg (some u) dr st uid g1 fs achalls).outcome =
        .error (.pluginError ("The working copy is out of date with the \x27" ++
          cfg.remote ++ "\x27 remote")) := by
  refine ⟨?_, ?_, ?_, ?_⟩
  · simp [is_up_to_date, gitCmd, resudoed, h0]
  · simp [is_up_to_date, gitCmd, resudoed, h1]
  · simp [is_up_to_date, gitCmd, resudoed, hk, hk0, hk1]
  · simp [perform, preflight, checked_out_branch, update_remote, is_up_to_date,
      gitCmd, resudoed, hroot, hbr, hrem, h1]

/-- Witness for C4: concrete git states with staged-diff exit statuses 0, 1
and 3. -/
theorem is_up_to_date_spec_witness :
    (is_up_to_date (some "bob") ⟨some "master", ["heroku"], 0⟩ ⟨[], []⟩
        "master" "heroku").1 = .ok true
    ∧ (is_up_to_date (some "bob") ⟨some "master", ["heroku"], 1⟩ ⟨[], []⟩
        "master" "heroku").1 = .ok false
    ∧ (is_up_to_date (some "bob") ⟨some "master", ["heroku"], 3⟩ ⟨[], []⟩
        "master" "heroku").1 = .error (.calledProcessError 3)
    ∧ (perform ⟨["public"], "heroku", "master"⟩ (some "bob") false false 0
        ⟨some "master", ["heroku"], 1⟩ [⟨["public"], true, "", 5⟩] []).outcome =
        .error (.pluginError "The working copy is out of date with the \x27heroku\x27 remote") :=
  is_up_to_date_spec "bob" "master" "heroku" ⟨[], []⟩
    ⟨some "master", ["heroku"], 0⟩ ⟨some "master", ["heroku"], 1⟩
    ⟨some "master", ["heroku"], 3⟩ 3 ⟨["public"], "heroku", "master"⟩
    [⟨["public"], true, "", 5⟩] false false 0 [] rfl rfl rfl (by decide) (by decide)
    (by decide) rfl (by decide)

/-- Claim C10: with every preflight precondition satisfied, calling `perform`
with an empty challenge list does not return an empty response list — after
preflight passes it fails with the unhandled IndexError from computing the
challenge directory out of the first challenge, so a non-empty challenge list
is a precondition of `perform`. -/
theorem perform_empty_achalls (cfg : Cfg) (u : String) (dr st : Bool)
    (uid : Int) (g : GitState) (fs : FS)
    (hroot : path_exists cfg.root fs = true)
    (hbr : g.branch = some cfg.branch)
    (hrem : cfg.remote ∈ g.remotes)
    (hdiff : g.diffExit = 0) :
    (perform cfg (some u) dr st uid g fs []).outcome = .error .indexError := by
  have hstat : ∃ o, statUid cfg.root fs = some o := by
    have hsome : (fs.find? (fun e => e.path == cfg.root)).isSome := by
      rw [List.find?_isSome]
      rcases List.any_eq_true.mp hroot with ⟨e, he, hbe⟩
      exact ⟨e, he, hbe⟩
    rcases Option.isSome_iff_exists.mp hsome with ⟨e, he⟩
    exact ⟨e.owner, by simp [statUid, he]⟩
  rcases hstat with ⟨o, ho⟩
  simp [perform, preflight_ok cfg u g fs ⟨[], []⟩ hroot hbr hrem hdiff, ho]

/-- Witness for C10: a concrete all-green configuration with no pending
challenges. -/
theorem perform_empty_achalls_witness :
    (perform ⟨["public"], "heroku", "master"⟩ (some "bob") false false 0
        ⟨some "master", ["heroku"], 0⟩ [⟨["public"], true, "", 5⟩] []).outcome =
      .error .indexError :=
  perform_empty_achalls ⟨["public"], "heroku", "master"⟩ "bob" false false 0
    ⟨some "master", ["heroku"], 0⟩ [⟨["public"], true, "", 5⟩] (by decide) rfl
    (by decide) rfl

end LEHeroku

namespace LEHeroku

/-- Membership in the chain of paths from the configured root down to the
challenge directory. -/
def onRootPath (root directory p : Path) : Bool :=
  root.isPrefixOf p && p.isPrefixOf directory

/-- A concrete filesystem refuting claim C5: the challenge directory
public/w/c sits under public/w, which also holds an unrelated file
public/w/other. -/
def chownExFS : FS :=
  [⟨["public"], true, "", 0⟩,
   ⟨["public", "w"], true, "", 0⟩,
   ⟨["public", "w", "c"], true, "", 0⟩,
   ⟨["public", "w", "other"], false, "x", 0⟩]

/-- Counterexample to claim C5: running the ownership fix-up with root
public, challenge directory public/w/c and owner 7 re-owns public/w/other —
a path not on the root-to-challenge-directory chain — and leaves the root
public (which is on that chain) at its old owner 0, so the fix-up neither
changes only the chain nor all of it. -/
theorem chown_claim_counterexample :
    chown_challenges ["public"] ["public", "w", "c"] 7 chownExFS =
      .ok [⟨["public"], true, "", 0⟩,
        ⟨["public", "w"], true, "", 7⟩,
        ⟨["public", "w", "c"], true, "", 7⟩,
        ⟨["public", "w", "other"], false, "x", 7⟩]
    ∧ onRootPath ["public"] ["public", "w", "c"] ["public", "w", "other"] = false
    ∧ onRootPath ["public"] ["public", "w", "c"] ["public"] = true := by
  decide

/-- The while loop of _chown_challenges resolves to the immediate child of
`root` on the way to the challenge directory, for any directory strictly
below `root`. -/
theorem chownTopAux_resolves (root : Path) (c : String) :
    ∀ (n : Nat) (rest : Path), rest.length ≤ n →
      chownTopAux (n + 1) root (root ++ c :: rest) = root ++ [c] := by
  intro n
  induction n with
  | zero =>
    intro rest hrest
    have : rest = [] := List.eq_nil_of_length_eq_zero (Nat.le_zero.mp hrest)
    subst this
    simp [chownTopAux]
  | succ m ih =>
    intro rest hrest
    rcases rest.eq_nil_or_concat with rfl | ⟨rest', x, rfl⟩
    · simp [chownTopAux]
    · simp only [List.concat_eq_append] at hrest ⊢
      have hsplit : root ++ c :: (rest' ++ [x]) = (root ++ c :: rest') ++ [x] := by
        simp
      rw [hsplit]
      have hdrop : ((root ++ c :: rest') ++ [x]).dropLast = root ++ c :: rest' := by
        rw [List.dropLast_concat]
      have hne : ((root ++ c :: rest' : Path) == root) = false := by
        apply beq_eq_false_iff_ne.mpr
        intro h
        have := congrArg List.length h
        simp at this
      simp only [chownTopAux, hdrop, hne, Bool.false_eq_true, if_false]
      have hlen : rest'.length ≤ m := by
        have := hrest
        simp at this
        omega
      exact ih rest' hlen

/-- Claim C5 as amended: for a challenge directory strictly below the root,
the ownership fix-up re-owns the immediate child of the root leading to the
challenge directory together with every existing entry below it — the
challenge directory, its files, and any other content of that subtree — and
changes no other entry; in particular the root itself is left untouched. -/
theorem chown_challenges_subtree (root rest : Path) (c : String) (owner : Int)
    (fs : FS) (hex : path_exists (root ++ [c]) fs = true) :
    chown_challenges root (root ++ c :: rest) owner fs =
      .ok (fs.map (fun e =>
        if (root ++ [c]).isPrefixOf e.path then { e with owner := owner } else e)) := by
  have htop : chownTopAux (root.length + (rest.length + 1)) root (root ++ c :: rest) =
      root ++ [c] := by
    have h2 : root.length + (rest.length + 1) = (root.length + rest.length) + 1 := by
      omega
    rw [h2]
    exact chownTopAux_resolves root c (root.length + rest.length) rest (by omega)
  simp [chown_challenges, htop, hex]

/-- Witness for the amended C5: on the counterexample filesystem the fix-up
re-owns exactly the subtree rooted at public/w. -/
theorem chown_challenges_subtree_witness :
    chown_challenges ["public"] (["public"] ++ "w" :: ["c"]) 7 chownExFS =
      .ok (chownExFS.map (fun e =>
        if (["public"] ++ ["w"]).isPrefixOf e.path then { e with owner := 7 } else e)) :=
  chown_challenges_subtree ["public"] ["c"] "w" 7 chownExFS (by decide)

end LEHeroku

namespace LEHeroku

/-- Strict descendants of a directory: entries inside it at any depth. -/
def strictUnder (d p : Path) : Bool := d.isPrefixOf p && !(p == d)

/-- The file entry _write_challenge creates for a challenge. -/
def entryOf (uid : Int) (d : Path) (c : Chall) : Entry :=
  ⟨d ++ [c.token], false, c.validationEncoded, uid⟩

/-- After rmtree nothing is left inside the removed directory. -/
theorem filter_strictUnder_rmtree (d : Path) (fs : FS) :
    (rmtree d fs).filter (fun e => strictUnder d e.path) = [] := by
  induction fs with
  | nil => rfl
  | cons e tl ih =>
    unfold rmtree at ih ⊢
    by_cases h : d.isPrefixOf e.path
    · simp only [List.filter_cons, h, Bool.not_true, Bool.false_eq_true, if_false]
      exact ih
    · have h' : d.isPrefixOf e.path = false := by
        cases hc : d.isPrefixOf e.path
        · rfl
        · exact absurd hc h
      simp only [List.filter_cons, h', Bool.not_false, if_true]
      have hsu : strictUnder d e.path = false := by
        unfold strictUnder
        rw [h']
        rfl
      simp only [hsu, Bool.false_eq_true, if_false]
      exact ih

/-- After _clear_directory nothing is left inside the challenge directory,
provided the filesystem is well formed (either the directory exists or
nothing was under it to begin with). -/
theorem filter_strictUnder_clear (d : Path) (fs : FS)
    (hwf : path_exists d fs = true ∨
      fs.filter (fun e => strictUnder d e.path) = []) :
    (clear_directory d fs).filter (fun e => strictUnder d e.path) = [] := by
  unfold clear_directory
  by_cases h : path_exists d fs
  · simp only [h, if_true]
    exact filter_strictUnder_rmtree d fs
  · rcases hwf with h1 | h2
    · exact absurd h1 h
    · simp only [h, Bool.false_eq_true, if_false]
      exact h2

/-- A nonempty prefix of the challenge directory is never strictly inside
it. -/
theorem strictUnder_take (d : Path) (i : Nat) :
    strictUnder d (d.take (i + 1)) = false := by
  unfold strictUnder
  by_cases h : d.isPrefixOf (d.take (i + 1)) = true
  · have hp : d <+: d.take (i + 1) := by rwa [List.isPrefixOf_iff_prefix] at h
    have htp : d.take (i + 1) <+: d := List.take_prefix _ _
    have heq : d.take (i + 1) = d := htp.eq_of_length (by
      have h1 : d.length ≤ (d.take (i + 1)).length := hp.length_le
      have h2 : (d.take (i + 1)).length ≤ d.length := htp.length_le
      omega)
    simp [heq]
  · have h' : d.isPrefixOf (d.take (i + 1)) = false := by
      cases hc : d.isPrefixOf (d.take (i + 1))
      · rfl
      · exact absurd hc h
    simp [h']

/-- The immediate child of a directory is strictly inside it. -/
theorem strictUnder_child (d : Path) (x : String) :
    strictUnder d (d ++ [x]) = true := by
  unfold strictUnder
  have h1 : d.isPrefixOf (d ++ [x]) = true := by
    rw [List.isPrefixOf_iff_prefix]
    exact List.prefix_append d [x]
  have h2 : ((d ++ [x] : Path) == d) = false := by
    apply beq_eq_false_iff_ne.mpr
    intro h
    have := congrArg List.length h
    simp at this
  simp [h1, h2]

/-- makedirs only adds prefixes of the directory, so the set of entries
strictly inside it is unchanged. -/
theorem filter_strictUnder_makedirs (uid : Int) (d : Path) (fs : FS) :
    (makedirs uid d fs).filter (fun e => strictUnder d e.path) =
      fs.filter (fun e => strictUnder d e.path) := by
  unfold makedirs
  rw [List.filter_append]
  have hnil : (((pathPrefixes d).filter (fun q => !path_exists q fs)).map
      (fun q => (⟨q, true, "", uid⟩ : Entry))).filter
        (fun e => strictUnder d e.path) = [] := by
    rw [List.filter_eq_nil_iff]
    intro e he
    rcases List.mem_map.mp he with ⟨q, hq, rfl⟩
    have hq2 : q ∈ pathPrefixes d := List.mem_of_mem_filter hq
    unfold pathPrefixes at hq2
    rcases List.mem_map.mp hq2 with ⟨i, _, rfl⟩
    simp [strictUnder_take]
  rw [hnil, List.append_nil]

/-- Appending entries preserves path existence. -/
theorem path_exists_append_left (q : Path) (fs fs' : FS)
    (h : path_exists q fs = true) : path_exists q (fs ++ fs') = true := by
  unfold path_exists at *
  rw [List.any_append, h]
  rfl

/-- Overwriting a file's content changes no entry's path. -/
theorem path_exists_map_content (q p : Path) (content : String) (fs : FS) :
    path_exists q (fs.map (fun e =>
      if e.path == p then { e with content := content } else e)) =
      path_exists q fs := by
  unfold path_exists
  rw [List.any_map]
  congr 1
  funext e
  by_cases h : e.path = p <;> simp [h]

/-- writeFile preserves path existence. -/
theorem path_exists_writeFile (uid : Int) (p q : Path) (content : String)
    (fs : FS) (h : path_exists q fs = true) :
    path_exists q (writeFile uid p content fs) = true := by
  unfold writeFile
  by_cases hp : path_exists p fs
  · simp only [hp, if_true]
    rw [path_exists_map_content]
    exact h
  · simp only [hp, Bool.false_eq_true, if_false]
    exact path_exists_append_left _ _ _ h

/-- _write_challenge preserves path existence. -/
theorem path_exists_write_challenge (uid : Int) (d q : Path) (c : Chall)
    (fs : FS) (h : path_exists q fs = true) :
    path_exists q (write_challenge uid d c fs) = true := by
  unfold write_challenge
  by_cases hd : path_exists d fs
  · simp only [hd, Bool.not_true, Bool.false_eq_true, if_false]
    exact path_exists_writeFile _ _ _ _ _ h
  · have hd' : path_exists d fs = false := by
      cases hc : path_exists d fs
      · rfl
      · exact absurd hc hd
    simp only [hd', Bool.not_false, if_true]
    exact path_exists_writeFile _ _ _ _ _ (path_exists_append_left _ _ _ h)

/-- After _write_challenge the challenge directory exists (it is created by
makedirs when missing). -/
theorem path_exists_dir_write_challenge (uid : Int) (d : Path) (c : Chall)
    (fs : FS) (hd : d ≠ []) :
    path_exists d (write_challenge uid d c fs) = true := by
  unfold write_challenge
  by_cases h : path_exists d fs
  · simp only [h, Bool.not_true, Bool.false_eq_true, if_false]
    exact path_exists_writeFile _ _ _ _ _ h
  · have h' : path_exists d fs = false := by
      cases hc : path_exists d fs
      · rfl
      · exact absurd hc h
    have hmk : path_exists d (makedirs uid d fs) = true := by
      unfold makedirs path_exists
      rw [List.any_append, Bool.or_eq_true]
      right
      rw [List.any_eq_true]
      refine ⟨⟨d, true, "", uid⟩, ?_, by simp⟩
      rw [List.mem_map]
      refine ⟨d, ?_, rfl⟩
      rw [List.mem_filter]
      constructor
      · unfold pathPrefixes
        rw [List.mem_map]
        have hpos : 0 < d.length := List.length_pos.mpr hd
        refine ⟨d.length - 1, ?_, ?_⟩
        · rw [List.mem_range]
          omega
        · have heq : d.length - 1 + 1 = d.length := by omega
          rw [heq, List.take_length]
      · have h2 : (fs.any fun e => e.path == d) = false := h'
        rw [h2]
        rfl
    simp only [h', Bool.not_false, if_true]
    exact path_exists_writeFile _ _ _ _ _ hmk

/-- Writing a fresh file appends exactly that file to the directory's
contents. -/
theorem filter_strictUnder_writeFile_fresh (uid : Int) (d : Path) (x : String)
    (content : String) (fs : FS)
    (hfresh : path_exists (d ++ [x]) fs = false) :
    (writeFile uid (d ++ [x]) content fs).filter
        (fun e => strictUnder d e.path) =
      fs.filter (fun e => strictUnder d e.path) ++
        [⟨d ++ [x], false, content, uid⟩] := by
  unfold writeFile
  simp only [hfresh, Bool.false_eq_true, if_false]
  rw [List.filter_append]
  simp [strictUnder_child]

/-- When the directory's contents are exactly the files of the already
written challenges and the next token is new, the next file's path is
absent. -/
theorem fresh_of_filter (uid : Int) (d : Path) (tok : String)
    (done : List Chall) (fs : FS)
    (hinv : fs.filter (fun e => strictUnder d e.path) = done.map (entryOf uid d))
    (htok : ∀ c' ∈ done, c'.token ≠ tok) :
    path_exists (d ++ [tok]) fs = false := by
  by_contra hcon
  rw [Bool.not_eq_false] at hcon
  rcases List.any_eq_true.mp hcon with ⟨e, he, hbe⟩
  have hpe : e.path = d ++ [tok] := beq_iff_eq.mp hbe
  have hsu : strictUnder d e.path = true := by
    rw [hpe]
    exact strictUnder_child d tok
  have hmem : e ∈ fs.filter (fun e => strictUnder d e.path) :=
    List.mem_filter.mpr ⟨he, hsu⟩
  rw [hinv] at hmem
  rcases List.mem_map.mp hmem with ⟨c', hc', hec⟩
  have hpaths : d ++ [c'.token] = d ++ [tok] := by
    have h1 := congrArg Entry.path hec
    unfold entryOf at h1
    simp only at h1
    rw [h1, hpe]
  have htoks : c'.token = tok := by
    have := List.append_cancel_left hpaths
    simpa using this
  exact htok c' hc' htoks

/-- makedirs adds only prefixes of the directory, never the new file's
path. -/
theorem fresh_makedirs (uid : Int) (d : Path) (tok : String) (fs : FS)
    (hfresh : path_exists (d ++ [tok]) fs = false) :
    path_exists (d ++ [tok]) (makedirs uid d fs) = false := by
  unfold makedirs path_exists at *
  rw [List.any_append, hfresh, Bool.false_or]
  rw [List.any_eq_false]
  intro e he
  rcases List.mem_map.mp he with ⟨q, hq, rfl⟩
  have hq2 : q ∈ pathPrefixes d := List.mem_of_mem_filter hq
  unfold pathPrefixes at hq2
  rcases List.mem_map.mp hq2 with ⟨i, hi, rfl⟩
  intro hcon
  have hcon' : d.take (i + 1) = d ++ [tok] := beq_iff_eq.mp hcon
  have hlen := congrArg List.length hcon'
  rw [List.mem_range] at hi
  simp [List.length_take] at hlen
  omega

/-- One _write_challenge step extends the directory's contents by exactly the
new challenge's file. -/
theorem filter_strictUnder_write_step (uid : Int) (d : Path) (c : Chall)
    (done : List Chall) (fs : FS)
    (hinv : fs.filter (fun e => strictUnder d e.path) = done.map (entryOf uid d))
    (htok : ∀ c' ∈ done, c'.token ≠ c.token) :
    (write_challenge uid d c fs).filter (fun e => strictUnder d e.path) =
      done.map (entryOf uid d) ++ [entryOf uid d c] := by
  have hfresh0 := fresh_of_filter uid d c.token done fs hinv htok
  unfold write_challenge
  by_cases hd : path_exists d fs
  · simp only [hd, Bool.not_true, Bool.false_eq_true, if_false]
    rw [filter_strictUnder_writeFile_fresh uid d c.token c.validationEncoded fs hfresh0,
      hinv]
    rfl
  · have hd' : path_exists d fs = false := by
      cases hc : path_exists d fs
      · rfl
      · exact absurd hc hd
    have hfresh := fresh_makedirs uid d c.token fs hfresh0
    simp only [hd', Bool.not_false, if_true]
    rw [filter_strictUnder_writeFile_fresh uid d c.token c.validationEncoded _ hfresh,
      filter_strictUnder_makedirs, hinv]
    rfl

/-- Folding _write_challenge over the remaining challenges accumulates their
files in order after those already written. -/
theorem filter_strictUnder_write_fold (uid : Int) (d : Path) :
    ∀ (l done : List Chall) (fs : FS),
      fs.filter (fun e => strictUnder d e.path) = done.map (entryOf uid d) →
      (done ++ l).Pairwise (fun a b => a.token ≠ b.token) →
      (l.foldl (fun f c => write_challenge uid d c f) fs).filter
          (fun e => strictUnder d e.path) = (done ++ l).map (entryOf uid d) := by
  intro l
  induction l with
  | nil =>
    intro done fs hinv _
    simpa using hinv
  | cons c tl ih =>
    intro done fs hinv hpw
    have hpw' : ((done ++ [c]) ++ tl).Pairwise (fun a b => a.token ≠ b.token) := by
      rw [List.append_assoc]
      simpa using hpw
    have htok : ∀ c' ∈ done, c'.token ≠ c.token := by
      rcases List.pairwise_append.mp hpw with ⟨_, _, hcross⟩
      intro c' hc'
      exact hcross c' hc' c (List.mem_cons_self c tl)
    have hstep := filter_strictUnder_write_step uid d c done fs hinv htok
    have hstep' : (write_challenge uid d c fs).filter
        (fun e => strictUnder d e.path) = (done ++ [c]).map (entryOf uid d) := by
      rw [List.map_append]
      simpa using hstep
    have hmain := ih (done ++ [c]) (write_challenge uid d c fs) hstep' hpw'
    rw [List.foldl_cons, hmain, List.append_assoc]
    simp

/-- Folding _write_challenge preserves path existence. -/
theorem path_exists_write_fold (uid : Int) (d q : Path) :
    ∀ (l : List Chall) (fs : FS), path_exists q fs = true →
      path_exists q (l.foldl (fun f c => write_challenge uid d c f) fs) = true := by
  intro l
  induction l with
  | nil => intro fs h; exact h
  | cons c tl ih =>
    intro fs h
    rw [List.foldl_cons]
    exact ih _ (path_exists_write_challenge uid d q c fs h)

/-- Claim C1: for a nonempty challenge list with pairwise-distinct tokens,
after the write phase of `perform` (directory reset followed by writing each
challenge) the challenge directory exists and contains exactly one file per
input challenge — named by that challenge's token and holding its encoded
validation payload — and nothing else: in particular no file from a prior
run remains.  The well-formedness hypothesis says the starting filesystem
does not hold entries inside a nonexistent challenge directory (true of real
filesystems). -/
theorem write_phase_correct (uid : Int) (directory : Path)
    (achalls : List Chall) (fs : FS)
    (hne : achalls ≠ [])
    (hdir : directory ≠ [])
    (hwf : path_exists directory fs = true ∨
      fs.filter (fun e => strictUnder directory e.path) = [])
    (hdis : achalls.Pairwise (fun a b => a.token ≠ b.token)) :
    (write_phase uid directory achalls fs).filter
        (fun e => strictUnder directory e.path) =
      achalls.map (entryOf uid directory)
    ∧ path_exists directory (write_phase uid directory achalls fs) = true := by
  constructor
  · have hbase := filter_strictUnder_clear directory fs hwf
    have hfold := filter_strictUnder_write_fold uid directory achalls []
      (clear_directory directory fs) (by simpa using hbase) (by simpa using hdis)
    unfold write_phase
    simpa using hfold
  · rcases achalls with _ | ⟨c, tl⟩
    · exact absurd rfl hne
    · unfold write_phase
      rw [List.foldl_cons]
      exact path_exists_write_fold uid directory directory tl _
        (path_exists_dir_write_challenge uid directory c _ hdir)

/-- Concrete data for the C1 witness: a filesystem already holding a stale
file in the challenge directory, and two fresh challenges. -/
def wChallA : Chall :=
  ⟨"a.example.com", [".well-known", "acme-challenge"], "tokA", "valA.sig", ⟨1⟩⟩

def wChallB : Chall :=
  ⟨"b.example.com", [".well-known", "acme-challenge"], "tokB", "valB.sig", ⟨2⟩⟩

def wDirectory : Path := ["public", ".well-known", "acme-challenge"]

def wFS : FS :=
  [⟨["public"], true, "", 5⟩,
   ⟨["public", ".well-known"], true, "", 5⟩,
   ⟨["public", ".well-known", "acme-challenge"], true, "", 5⟩,
   ⟨["public", ".well-known", "acme-challenge", "stale"], false, "old", 5⟩]

/-- Witness for C1: on the concrete filesystem the write phase leaves exactly
the two challenge files (the stale file is gone) and the directory exists. -/
theorem write_phase_correct_witness :
    (write_phase 0 wDirectory [wChallA, wChallB] wFS).filter
        (fun e => strictUnder wDirectory e.path) =
      [wChallA, wChallB].map (entryOf 0 wDirectory)
    ∧ path_exists wDirectory (write_phase 0 wDirectory [wChallA, wChallB] wFS) = true :=
  write_phase_correct 0 wDirectory [wChallA, wChallB] wFS (by decide) (by decide)
    (Or.inl (by decide)) (by decide)

end LEHeroku
